import Mathlib

/-!
Verification of the spec-agent coordination core (shallow embedding).

The definitions below are translated from the Python sources:
  scripts/spec_agent_engine_core.py   (metadata store, lock primitive, stage orchestrator)
  scripts/spec_agent_engine_checks.py (dependency freshness portion of final_check)
  scripts/spec_agent_ops.py           (cmd_init race model)

Conventions of the embedding:
  - Python dictionaries become structures or association lists.
  - Filesystem and process state is made explicit (records passed in and out).
  - Wall-clock readings are rational numbers; timestamps that are only
    logged (updated_at fields) are dropped.
  - The md5 digest (hashlib) is an external collaborator and appears as an
    explicit function parameter where content hashing matters.
-/

namespace SpecAgent

/-- The five orchestrator stages, SUBAGENT_STAGE_ORDER in the source. -/
inductive Stage
  | analysis
  | prd
  | tech
  | acceptance
  | finalCheck
  deriving DecidableEq, Repr

/-- SUBAGENT_STAGE_ORDER = ["analysis", "prd", "tech", "acceptance", "final_check"]. -/
def stageOrder : List Stage := [.analysis, .prd, .tech, .acceptance, .finalCheck]

/-- SUBAGENT_STAGE_DEPENDENCIES. -/
def stageDeps : Stage → List Stage
  | .analysis => []
  | .prd => [.analysis]
  | .tech => [.analysis, .prd]
  | .acceptance => [.analysis, .prd, .tech]
  | .finalCheck => [.analysis, .prd, .tech, .acceptance]

/-- String name of a stage as used in messages and maps. -/
def stageName : Stage → String
  | .analysis => "analysis"
  | .prd => "prd"
  | .tech => "tech"
  | .acceptance => "acceptance"
  | .finalCheck => "final_check"

/-- Membership of SUBAGENT_STAGE_DOC_MAP: the four document-producing stages. -/
def isDocStage : Stage → Bool
  | .finalCheck => false
  | _ => true

/-- DOC_FILES relative path of the document each doc stage produces. -/
def docFileName : Stage → String
  | .analysis => "01-analysis.md"
  | .prd => "02-prd.md"
  | .tech => "03-tech.md"
  | .acceptance => "04-acceptance.md"
  | .finalCheck => ""

/-- SUBAGENT_REOPEN_ORDER = ["analysis", "prd", "tech", "acceptance"]. -/
def reopenOrder : List Stage := [.analysis, .prd, .tech, .acceptance]

/-! ## Metadata store (save_metadata_file, _metadata_version)

A metadata record is the JSON object in metadata.json: the `_meta_version`
key (absent or unparseable modelled as `none`) plus the remaining fields,
abstracted as an association list. -/

structure MetaRecord where
  versionField : Option Int
  body : List (String × String)
  deriving DecidableEq, Repr

/-- _metadata_version: read `_meta_version`, unparseable becomes 0,
negative values become 0. -/
def metadataVersion (m : MetaRecord) : Nat :=
  match m.versionField with
  | none => 0
  | some v => v.toNat

/-- save_metadata_file. The on-disk file is `disk` (`none` when missing);
the result is the new on-disk contents paired with the returned version or
the raised error. The read-compare-write happens under the metadata lock,
so it is modelled as one atomic state transition; the physical write uses
write_file_atomic (temp file + rename), which is why the on-disk contents
jump in one step and are never half-written. -/
def saveMetadataFile (disk : Option MetaRecord) (payload : MetaRecord)
    (dryRun : Bool) (expectedVersion : Option Int) :
    Option MetaRecord × Except String Nat :=
  if dryRun then
    (disk, .ok (metadataVersion payload))
  else
    match disk with
    | none => (none, .error "metadata.json not found, run init first")
    | some d =>
      let diskVersion := metadataVersion d
      let conflict :=
        match expectedVersion with
        | some e => decide (e ≠ (diskVersion : Int))
        | none => false
      if conflict then
        (some d, .error "metadata version conflict")
      else
        let next := diskVersion + 1
        (some { payload with versionField := some (next : Int) }, .ok next)

/-! ## Lock primitive (_acquire_file_lock, _release_file_lock, _read_lock_owner)

Clock readings (marker age, elapsed waiting time, thresholds) are integers
at nanosecond granularity; only order comparisons matter. One polling
iteration of _acquire_file_lock is a pure decision over an observation of
the world at that instant. -/

/-- What one iteration of the acquisition loop observes. -/
structure LockObs where
  /-- the O_CREAT | O_EXCL open failed because the marker file exists -/
  lockExists : Bool
  /-- pid recorded in the marker (_read_lock_owner), none when unparseable -/
  ownerPid : Option Int
  /-- start signature recorded in the marker (_read_lock_owner) -/
  ownerSig : String
  /-- the operating system reports the recorded pid as currently running -/
  osRunning : Bool
  /-- start signature currently observed for the recorded pid
  (_process_start_signature; empty when unobtainable) -/
  osSig : String
  /-- marker age in ns (time.time() - stat().st_mtime); none when stat raised -/
  age : Option Int
  /-- elapsed ns since acquisition started (time.time() - start) -/
  elapsed : Int
  deriving DecidableEq, Repr

/-- pid_running composed with the owner pid: a missing or non-positive pid
is never considered running. -/
def ownerRunning (o : LockObs) : Bool :=
  match o.ownerPid with
  | none => false
  | some p => decide (0 < p) && o.osRunning

/-- Outcome of one iteration of the _acquire_file_lock polling loop. -/
inductive LockStepResult
  | acquired
  | reclaimed
  | timedOut
  | sleep
  deriving DecidableEq, Repr

/-- One iteration of the while-loop body of _acquire_file_lock:
create-or-inspect, possibly reclaim a stale marker, otherwise time out or
sleep poll_sec and retry. -/
def lockStep (staleSec timeoutSec : Int) (o : LockObs) : LockStepResult :=
  if !o.lockExists then
    .acquired
  else
    let running := ownerRunning o
    let currentSig := if running then o.osSig else ""
    let reclaim :=
      match o.age with
      | none => false
      | some a =>
        if staleSec < a then
          if !running then true
          else if o.ownerSig ≠ "" && currentSig ≠ "" && o.ownerSig ≠ currentSig then true
          else false
        else false
    if reclaim then .reclaimed
    else if timeoutSec < o.elapsed then .timedOut
    else .sleep

/-- Outcome of a whole acquisition attempt. -/
inductive AcqOutcome
  | acquired
  | timedOut
  deriving DecidableEq, Repr

/-- The acquisition loop over the sequence of per-iteration observations
(one entry per wakeup); reclaiming or sleeping continues with the next
observation, and an exhausted trace means the waiter is still polling. -/
def acquireRun (staleSec timeoutSec : Int) : List LockObs → Option AcqOutcome
  | [] => none
  | o :: rest =>
    match lockStep staleSec timeoutSec o with
    | .acquired => some .acquired
    | .timedOut => some .timedOut
    | .reclaimed => acquireRun staleSec timeoutSec rest
    | .sleep => acquireRun staleSec timeoutSec rest

/-- What _release_file_lock observes: the marker and the identity of the
releasing process (its pid and the currently obtainable start signature of
that pid). Returns true exactly when the marker file is unlinked; every
error path in the source returns without raising. -/
def releaseDeletes (lockExists : Bool) (ownerPid : Option Int) (ownerSig : String)
    (myPid : Int) (mySig : String) : Bool :=
  if !lockExists then
    false
  else
    let pidMismatch :=
      match ownerPid with
      | some p => decide (p ≠ 0) && decide (p ≠ myPid)
      | none => false
    if pidMismatch then false
    else if ownerSig ≠ "" && mySig ≠ "" && mySig ≠ ownerSig then false
    else if ownerPid = none && ownerSig ≠ "" then false
    else true

/-! ## Requirement creation race (cmd_init with an explicit name)

Two processes run cmd_init with the same requested requirement name and
date. Each executes: acquire the requirement lock (atomic O_CREAT|O_EXCL
creation of the shared marker, modelled as an atomic test-and-set), then
inside the critical section check path.exists() — raising
"requirement already exists" when true — or create the directory and write
the initial metadata (_initial_metadata, whose _meta_version is 1), then
release the lock. Steps inside the critical section are serialized by the
lock, so the check-and-create is one transition; a blocked process polls
(a no-op step). -/

/-- Program counter of one init process. -/
inductive InitPc
  /-- before acquiring the requirement lock -/
  | start
  /-- holding the lock, about to check path.exists() -/
  | inCrit
  /-- created the directory and version-1 metadata, still holding the lock -/
  | created
  /-- finished successfully -/
  | doneOk
  /-- raised "requirement already exists" (lock released by the context manager) -/
  | doneExists
  deriving DecidableEq, Repr

/-- Shared filesystem state plus both program counters. `metaWrites`
records, in order, every write of the initial metadata record (each write
stores version 1). -/
structure InitSys where
  lockHeld : Option (Fin 2)
  dirExists : Bool
  metaWrites : List (Fin 2)
  metaVersion : Nat
  pc : Fin 2 → InitPc
  deriving DecidableEq

/-- Initial state: no marker, no directory, no metadata. -/
def initSys0 : InitSys :=
  { lockHeld := none, dirExists := false, metaWrites := [], metaVersion := 0,
    pc := fun _ => .start }

/-- One scheduler step giving the processor to process i. -/
def initStep (s : InitSys) (i : Fin 2) : InitSys :=
  match s.pc i with
  | .start =>
    -- os.open(lock_path, O_CREAT | O_EXCL): succeeds only when no marker exists.
    if s.lockHeld = none then
      { s with lockHeld := some i, pc := fun j => if j = i then .inCrit else s.pc j }
    else
      s
  | .inCrit =>
    if s.dirExists then
      -- raise SystemExit("requirement already exists"); lock released in finally.
      { s with lockHeld := none, pc := fun j => if j = i then .doneExists else s.pc j }
    else
      -- init_docs: create the directory and write _initial_metadata (version 1).
      { s with dirExists := true, metaWrites := s.metaWrites ++ [i], metaVersion := 1,
               pc := fun j => if j = i then .created else s.pc j }
  | .created =>
    { s with lockHeld := none, pc := fun j => if j = i then .doneOk else s.pc j }
  | .doneOk => s
  | .doneExists => s

/-- Run a schedule (the list of scheduler choices). -/
def initRun (sched : List (Fin 2)) : InitSys :=
  sched.foldl initStep initSys0

/-- A process is finished when it reached one of the two terminal states. -/
def initDone (s : InitSys) (i : Fin 2) : Prop :=
  s.pc i = .doneOk ∨ s.pc i = .doneExists

instance (s : InitSys) (i : Fin 2) : Decidable (initDone s i) := by
  unfold initDone; infer_instance

/-- Inductive invariant of the race: the lock is held by whoever is inside
the critical section, the initial metadata is written at most once (by a
process that then finishes successfully), and nobody can fail with
"requirement already exists" before the directory exists. -/
def initInv (s : InitSys) : Prop :=
  (∀ i, (s.pc i = .inCrit ∨ s.pc i = .created) → s.lockHeld = some i)
  ∧ (s.metaWrites = [] ∨ ∃ w, s.metaWrites = [w])
  ∧ (s.metaWrites = [] →
      s.dirExists = false
      ∧ ∀ i, s.pc i ≠ .created ∧ s.pc i ≠ .doneOk ∧ s.pc i ≠ .doneExists)
  ∧ (∀ w, s.metaWrites = [w] →
      s.dirExists = true ∧ s.metaVersion = 1
      ∧ (s.pc w = .created ∨ s.pc w = .doneOk))
  ∧ (∀ i, (s.pc i = .created ∨ s.pc i = .doneOk) → s.metaWrites = [i])

/-! ## Dependency signature engine: content hashing
(strip_clarification_block, content_hash_without_clarifications)

Document text is a list of characters. The regex
re.escape(CLARIFY_START) + r"[\s\S]*?" + re.escape(CLARIFY_END) used with
re.sub removes, scanning left to right, each leftmost region from a start
marker to the first end marker after it; findPat/removeBlocks implement
exactly that scan (a start marker with no end marker after it never
matches, and scanning resumes after the removed region). -/

/-- Index of the first occurrence of pat in the text (None when absent). -/
def findPat (pat : List Char) : List Char → Option Nat
  | [] => if pat.isEmpty then some 0 else none
  | c :: rest =>
    if pat.isPrefixOf (c :: rest) then some 0
    else (findPat pat rest).map (· + 1)

/-- Remove every leftmost startM ... endM region, resuming the scan after
each removed region; fuel bounds the recursion (text length suffices). -/
def removeBlocks (startM endM : List Char) : Nat → List Char → List Char
  | 0, text => text
  | fuel + 1, text =>
    match findPat startM text with
    | none => text
    | some i =>
      match findPat endM (text.drop (i + startM.length)) with
      | none => text
      | some j =>
        text.take i ++
          removeBlocks startM endM fuel ((text.drop (i + startM.length)).drop (j + endM.length))

/-- CLARIFY_START as a character list. -/
def clarifyStartMarker : List Char := "<!-- CLARIFICATIONS:START -->".toList

/-- CLARIFY_END as a character list. -/
def clarifyEndMarker : List Char := "<!-- CLARIFICATIONS:END -->".toList

/-- strip_clarification_block. -/
def stripClarificationBlock (text : List Char) : List Char :=
  removeBlocks clarifyStartMarker clarifyEndMarker text.length text

/-- content_hash_without_clarifications: md5 hex digest (an external
collaborator, passed as a function) of the stripped text. -/
def contentHashWithoutClarifications (md5hex : List Char → List Char)
    (text : List Char) : List Char :=
  md5hex (stripClarificationBlock text)

/-! ## Dependency freshness check
(final_check in spec_agent_engine_checks.py, chain portion)

Inputs of the freshness portion: the current content hash of each existing
document, the dependency-signature map embedded in each document
(extract_dependency_signatures), and the doc_dependency_state snapshot of
the metadata record. Absent snapshot entries read as empty strings/maps,
exactly as the .get defaults do. -/

def downstreamDocs : List Stage := [.prd, .tech, .acceptance]

def chainUpstreams : Stage → List Stage
  | .prd => [.analysis]
  | .tech => [.analysis, .prd]
  | .acceptance => [.analysis, .prd, .tech]
  | _ => []

inductive DepIssue
  | missingSignature (doc : Stage)
  | signatureMismatch (doc : Stage)
  | staleDownstream (doc : Stage)
  deriving DecidableEq, Repr

structure DepCheckWorld where
  docHash : Stage → Option String
  sigs : Stage → List (Stage × String)
  snapDocHash : Stage → String
  snapUp : Stage → Stage → String

def sigLookup (l : List (Stage × String)) (k : Stage) : Option String :=
  (l.find? (fun p => decide (p.1 = k))).map (·.2)

def depIssuesFor (w : DepCheckWorld) (d : Stage) : List DepIssue :=
  match w.docHash d with
  | none => []
  | some currentDocHash =>
    let ups := chainUpstreams d
    if ups.any (fun u => (w.docHash u).isNone) then []
    else
      let currentUp : List (Stage × String) := ups.map (fun u => (u, (w.docHash u).getD ""))
      let hasAll := ups.all (fun u => (sigLookup (w.sigs d) u).isSome)
      let sigMatch := hasAll && currentUp.all (fun p => (sigLookup (w.sigs d) p.1).getD "" == p.2)
      let sigIssues :=
        if !hasAll then [DepIssue.missingSignature d]
        else if !sigMatch then [DepIssue.signatureMismatch d]
        else []
      if (w.snapDocHash d == "" || w.snapDocHash d != currentDocHash) && sigMatch then
        sigIssues
      else
        let stale := currentUp.any (fun p => w.snapUp d p.1 != p.2)
        sigIssues ++ (if stale then [DepIssue.staleDownstream d] else [])

def depFreshnessIssues (w : DepCheckWorld) : List DepIssue :=
  depIssuesFor w .prd ++ depIssuesFor w .tech ++ depIssuesFor w .acceptance

def c4WorldStale : DepCheckWorld :=
  { docHash := fun s => match s with
      | .analysis => some "ha"
      | .prd => some "hp"
      | _ => none
    sigs := fun _ => [(.analysis, "ha")]
    snapDocHash := fun s => match s with
      | .prd => "hp"
      | _ => ""
    snapUp := fun _ _ => "old" }

def c4WorldFresh : DepCheckWorld :=
  { docHash := fun s => match s with
      | .analysis => some "a"
      | .prd => some "b"
      | .tech => some "c"
      | .acceptance => some "d"
      | .finalCheck => none
    sigs := fun s => match s with
      | .prd => [(.analysis, "a")]
      | .tech => [(.analysis, "a"), (.prd, "b")]
      | .acceptance => [(.analysis, "a"), (.prd, "b"), (.tech, "c")]
      | _ => []
    snapDocHash := fun _ => ""
    snapUp := fun _ _ => "" }

/-! ## Stage orchestrator
(update_subagent_stage, subagent_status and helpers in
spec_agent_engine_core.py)

Python string operations (strip, lower, startswith, substring search) are
implemented over the character list of the string so that every definition
evaluates by kernel reduction. Wall-clock updated_at fields are dropped.
The external review collaborator final_check(path, write_back=False) is an
input: the issue list it returns for the current documents. -/

/-- str.strip() (whitespace at both ends). -/
def pyTrim (s : String) : String :=
  String.mk (((s.toList.dropWhile Char.isWhitespace).reverse.dropWhile
    Char.isWhitespace).reverse)

/-- str.lower() (ASCII). -/
def pyLower (s : String) : String :=
  String.mk (s.toList.map Char.toLower)

/-- str.startswith(pre). -/
def startsWithL (s pre : String) : Bool :=
  pre.toList.isPrefixOf s.toList

/-- Python substring containment (pat in s). -/
def containsSub (s pat : String) : Bool :=
  (findPat pat.toList s.toList).isSome

/-- Python (reason + "; " + old).strip("; ").strip() used when reopening
or downgrading rewrites a stage note. -/
def joinReason (reason old : String) : String :=
  let semiSpace : Char → Bool := fun c => c = ';' || c = ' '
  let l1 := (reason ++ "; " ++ old).toList
  let l2 := ((l1.dropWhile semiSpace).reverse.dropWhile semiSpace).reverse
  String.mk (((l2.dropWhile Char.isWhitespace).reverse.dropWhile
    Char.isWhitespace).reverse)

/-- Status values in SUBAGENT_STAGE_STATUSES. -/
inductive StageStatus
  | pending
  | running
  | completed
  | failed
  deriving DecidableEq, Repr

/-- Persisted per-stage state (the stages map entries of the subagents
block); updated_at is a wall-clock string and is dropped. -/
structure StageState where
  status : StageStatus
  agent : String
  docHash : String
  upstreamHashes : List (Stage × String)
  notes : String
  validationErrors : List String
  deriving DecidableEq, Repr

/-- Observables of one existing document file: whether content.strip() is
empty, its content hash (content_hash_without_clarifications) and its
embedded dependency signature map (extract_dependency_signatures). -/
structure DocInfo where
  blank : Bool
  hash : String
  sigs : List (Stage × String)
  deriving DecidableEq, Repr

/-- One issue returned by the external review (final_check): the dict keys
doc, question, code. -/
structure Issue where
  doc : String
  question : String
  code : String
  deriving DecidableEq, Repr

/-- The orchestrator world: the stages map of the metadata record, the
document files on disk, and the issues the external review returns when
run in non-mutating mode on the current documents. -/
structure OrchWorld where
  stages : Stage → StageState
  docs : Stage → Option DocInfo
  reviewIssues : List Issue

/-- _current_doc_hashes restricted to one stage: the hash of the stage
document when the stage produces one and the file exists. -/
def currentDocHash (w : OrchWorld) (s : Stage) : Option String :=
  if isDocStage s then (w.docs s).map (fun i => i.hash) else none

/-- _stage_upstream_hashes: hashes of the dependency documents that
currently exist. -/
def stageUpstreamHashes (w : OrchWorld) (s : Stage) : List (Stage × String) :=
  (stageDeps s).filterMap (fun d => (currentDocHash w d).map (fun h => (d, h)))

/-- _validate_stage_dependencies. -/
def validateStageDependencies (stages : Stage → StageState) (s : Stage) :
    List String :=
  (stageDeps s).filterMap (fun d =>
    if (stages d).status ≠ .completed then
      some ("dependency stage not completed: " ++ stageName d)
    else none)

/-- _validate_doc_stage_completion: document hash and validation issues. -/
def validateDocStageCompletion (w : OrchWorld) (s : Stage)
    (up : List (Stage × String)) : String × List String :=
  if !isDocStage s then ("", [])
  else
    match w.docs s with
    | none => ("", [docFileName s ++ " missing"])
    | some info =>
      if info.blank then ("", [docFileName s ++ " is empty"])
      else
        let errs :=
          if s = .prd ∨ s = .tech ∨ s = .acceptance then
            up.filterMap (fun p =>
              match sigLookup info.sigs p.1 with
              | none => some (docFileName s ++ " missing dependency signature: "
                  ++ stageName p.1)
              | some v =>
                if v ≠ p.2 then
                  some (docFileName s ++ " dependency signature mismatch: "
                    ++ stageName p.1)
                else none)
          else []
        (info.hash, errs)

/-- _validate_final_check_stage: the review issues rendered as
"doc: question" strings. -/
def validateFinalCheckStage (w : OrchWorld) : List String :=
  w.reviewIssues.map (fun it => it.doc ++ ": " ++ it.question)

/-- Keyword fallback of _classify_issue_to_stage over the issue question. -/
def classifyFromQuestion (question : String) : Stage :=
  if containsSub (pyTrim question) "验收"
      || containsSub (pyTrim question) "A-" then Stage.acceptance
  else if containsSub (pyTrim question) "技术方案"
      || containsSub (pyTrim question) "SQL"
      || containsSub (pyTrim question) "数据库设计"
      || containsSub (pyTrim question) "回滚" then Stage.tech
  else if containsSub (pyTrim question) "PRD"
      || containsSub (pyTrim question) "产品功能"
      || containsSub (pyTrim question) "非功能性需求" then Stage.prd
  else Stage.analysis

/-- FINAL_CHECK_DOC_STAGE_MAP lookup on the issue doc field. -/
def classifyFromDoc (doc : String) : Option Stage :=
  if pyLower (pyTrim doc) = "analysis" then some Stage.analysis
  else if pyLower (pyTrim doc) = "prd" then some Stage.prd
  else if pyLower (pyTrim doc) = "tech" then some Stage.tech
  else if pyLower (pyTrim doc) = "acceptance" then some Stage.acceptance
  else if pyLower (pyTrim doc) = "global" then some Stage.analysis
  else none

/-- _classify_issue_to_stage: code prefix first, then the doc field via
FINAL_CHECK_DOC_STAGE_MAP, then keyword fallback on the question, with
analysis as the default. -/
def classifyRest (it : Issue) : Stage :=
  match classifyFromDoc it.doc with
  | some s => s
  | none => classifyFromQuestion it.question

/-- _classify_issue_to_stage proper: code prefix wins, otherwise the
doc-field/keyword fallback of classifyRest. -/
def classifyIssueToStage (it : Issue) : Stage :=
  if pyLower (pyTrim it.code) ≠ "" then
    if startsWithL (pyLower (pyTrim it.code)) "analysis." then .analysis
    else if startsWithL (pyLower (pyTrim it.code)) "prd." then .prd
    else if startsWithL (pyLower (pyTrim it.code)) "tech." then .tech
    else if startsWithL (pyLower (pyTrim it.code)) "acceptance." then .acceptance
    else if startsWithL (pyLower (pyTrim it.code)) "global." then .analysis
    else classifyRest it
  else classifyRest it

/-- _suggest_reopen_stage_from_final_check: the earliest stage (in reopen
order) with a classified issue, plus the per-stage counts. -/
def suggestReopenStage (issues : List Issue) :
    Option Stage × List (Stage × Nat) :=
  if issues.isEmpty then (none, [])
  else
    let counts := reopenOrder.map (fun s =>
      (s, (issues.filter (fun it => decide (classifyIssueToStage it = s))).length))
    (reopenOrder.find? (fun s =>
      decide (0 < (issues.filter
        (fun it => decide (classifyIssueToStage it = s))).length)), counts)

/-- Convenience projection used in the statements. -/
def earliestReopenStage (issues : List Issue) : Option Stage :=
  (suggestReopenStage issues).1

/-- The suffix of SUBAGENT_REOPEN_ORDER starting at the target stage (the
started flag of _reopen_doc_stages_from). -/
def reopenTargets (target : Stage) : List Stage :=
  reopenOrder.dropWhile (fun s => decide (s ≠ target))

/-- _reopen_doc_stages_from. -/
def reopenDocStagesFrom (stages : Stage → StageState) (target : Stage)
    (reason : String) : Stage → StageState :=
  fun s =>
    if s ∈ reopenTargets target then
      { stages s with
        status := .pending
        docHash := ""
        upstreamHashes := []
        validationErrors := []
        notes := joinReason reason (stages s).notes }
    else stages s

/-- Stages strictly after s in SUBAGENT_STAGE_ORDER. -/
def laterStages (s : Stage) : List Stage :=
  (stageOrder.dropWhile (fun t => decide (t ≠ s))).drop 1

/-- _downgrade_downstream_stages. -/
def downgradeDownstreamStages (stages : Stage → StageState) (s : Stage)
    (reason : String) : Stage → StageState :=
  fun t =>
    if t ∈ laterStages s ∧ (stages t).status ≠ .pending then
      { stages t with
        status := .pending
        docHash := ""
        upstreamHashes := []
        validationErrors := []
        notes := joinReason reason (stages t).notes }
    else stages t

/-- _recommended_next_stage. -/
def recommendedNextStage (stages : Stage → StageState) : Option Stage :=
  stageOrder.find? (fun s =>
    decide ((stages s).status ≠ .completed) &&
    (stageDeps s).all (fun d => decide ((stages d).status = .completed)))

/-- recorded.get(k, "") over an upstream hash association list. -/
def assocGetD (l : List (Stage × String)) (k : Stage) : String :=
  (sigLookup l k).getD ""

/-- The loop of lines 2543-2556 of update_subagent_stage: the first
completed downstream of the completed stage whose recorded upstream
hashes drifted from the current ones. -/
def firstDriftedDownstream (w : OrchWorld) (stages : Stage → StageState)
    (s : Stage) : Option Stage :=
  stageOrder.find? (fun d =>
    decide (d ≠ s) && decide (s ∈ stageDeps d) &&
    decide ((stages d).status = .completed) &&
    (stageUpstreamHashes w d).any
      (fun p => decide (assocGetD (stages d).upstreamHashes p.1 ≠ p.2)))

/-- last_reopen payload (the at timestamp and the truncated issue list are
presentation fields and are dropped). -/
structure ReopenInfo where
  stage : Stage
  reason : String
  source : String
  issueCount : Nat
  breakdown : List (Stage × Nat)
  deriving DecidableEq, Repr

/-- The two SystemExit kinds update_subagent_stage raises, with the lines
of the raised message. -/
inductive StageError
  | blocked (stage : Stage) (issues : List String)
  | validationFailed (stage : Stage) (issues : List String)
  deriving DecidableEq, Repr

/-- The state persisted by a successful update_subagent_stage. -/
structure UpdateResult where
  stages : Stage → StageState
  lastReopen : Option ReopenInfo
  currentStage : Stage

/-- update_subagent_stage. lastReopen0 is the last_reopen block currently
in the metadata record. -/
def updateSubagentStage (w : OrchWorld) (lastReopen0 : Option ReopenInfo)
    (stage : Stage) (status : StageStatus) (agent notes : String)
    (force : Bool) : Except StageError UpdateResult :=
  let stages := w.stages
  let depIssues :=
    if status = .running ∨ status = .completed then
      validateStageDependencies stages stage
    else []
  if !depIssues.isEmpty && !force then
    .error (.blocked stage depIssues)
  else
    let up := if status = .completed then stageUpstreamHashes w stage else []
    let vres :=
      if status = .completed then
        if isDocStage stage then validateDocStageCompletion w stage up
        else ("", validateFinalCheckStage w)
      else ("", [])
    if !vres.2.isEmpty && !force then
      .error (.validationFailed stage vres.2)
    else
      let st1 : Stage → StageState := fun s =>
        if s = stage then
          { status := status, agent := pyTrim agent, docHash := vres.1,
            upstreamHashes := up, notes := pyTrim notes,
            validationErrors := vres.2 }
        else stages s
      let reopenPair :=
        if stage = .finalCheck ∧ status = .failed then
          match suggestReopenStage w.reviewIssues with
          | (some rs, counts) =>
            let breakdown := counts.filter (fun p => decide (0 < p.2))
            let reasonText := "auto reopen by final-check mapping ("
              ++ String.intercalate ", "
                  (breakdown.map (fun p => stageName p.1 ++ ":" ++ toString p.2))
              ++ ")"
            (reopenDocStagesFrom st1 rs reasonText,
             some { stage := rs, reason := reasonText, source := "final_check",
                    issueCount := w.reviewIssues.length,
                    breakdown := breakdown })
          | (none, _) => (st1, none)
        else (st1, lastReopen0)
      let st3 :=
        if (status = .pending ∨ status = .failed) ∧ stage ≠ .finalCheck then
          downgradeDownstreamStages reopenPair.1 stage
            ("upstream stage changed: " ++ stageName stage)
        else reopenPair.1
      let st4 :=
        if status = .completed ∧ isDocStage stage then
          match firstDriftedDownstream w st3 stage with
          | some d => downgradeDownstreamStages st3 d
              ("upstream content drifted: " ++ stageName stage)
          | none => st3
        else st3
      .ok { stages := st4, lastReopen := reopenPair.2,
            currentStage := (recommendedNextStage st4).getD .finalCheck }

/-- Staleness of one completed document stage in subagent_status: the
recorded doc hash is empty or differs from the current one, or one of the
recorded upstream hashes differs from the current upstream hash. -/
def staleDocStage (w : OrchWorld) (s : Stage) : Bool :=
  let st := w.stages s
  let recordedDoc := pyTrim st.docHash
  let currentDoc := (currentDocHash w s).getD ""
  if recordedDoc = "" || recordedDoc ≠ currentDoc then true
  else (stageUpstreamHashes w s).any
    (fun p => decide (assocGetD st.upstreamHashes p.1 ≠ p.2))

/-- Staleness of a doc stage guarded by its completion status (the value
stale[dep] holds when final_check inspects its dependencies). -/
def staleForDoc (w : OrchWorld) (d : Stage) : Bool :=
  if (w.stages d).status ≠ .completed then false
  else staleDocStage w d

/-- The stale flag subagent_status computes for every stage. -/
def staleStage (w : OrchWorld) (s : Stage) : Bool :=
  if (w.stages s).status ≠ .completed then false
  else if isDocStage s then staleDocStage w s
  else (stageDeps .finalCheck).any (fun d =>
    staleForDoc w d || decide ((w.stages d).status ≠ .completed))

/-- What subagent_status returns and persists. persistedStages is the
stages map on disk after the call; saved tells whether the metadata file
was written. -/
structure StatusResult where
  currentStage : Stage
  staleStages : List Stage
  persistedStages : Stage → StageState
  reportedStages : Stage → StageState
  saved : Bool

/-- subagent_status. -/
def subagentStatus (w : OrchWorld) (normalize : Bool) : StatusResult :=
  let effective : Stage → StageState := fun s =>
    if staleStage w s then { w.stages s with status := .pending }
    else w.stages s
  let staleList := stageOrder.filter (fun s => staleStage w s)
  let staleChanged := stageOrder.any (fun s =>
    staleStage w s && decide ((w.stages s).status ≠ .pending))
  { currentStage := (recommendedNextStage effective).getD .finalCheck
    staleStages := staleList
    persistedStages := if normalize && staleChanged then effective else w.stages
    reportedStages := if normalize then effective else w.stages
    saved := normalize && staleChanged }

/-- Witness world for C7: analysis completed but its document has been
edited since (recorded hash old, current hash new). -/
def c7World : OrchWorld :=
  { stages := fun s => match s with
      | .analysis => { status := .completed, agent := "a1", docHash := "old",
                       upstreamHashes := [], notes := "", validationErrors := [] }
      | _ => { status := .pending, agent := "", docHash := "",
               upstreamHashes := [], notes := "", validationErrors := [] }
    docs := fun s => match s with
      | .analysis => some { blank := false, hash := "new", sigs := [] }
      | _ => none
    reviewIssues := [] }

/-- Witness world for C5: analysis completed with a consistent document,
prd document present with a matching signature, tech still blocked. -/
def c5World : OrchWorld :=
  { stages := fun s => match s with
      | .analysis => { status := .completed, agent := "a1", docHash := "ha",
                       upstreamHashes := [], notes := "", validationErrors := [] }
      | _ => { status := .pending, agent := "", docHash := "",
               upstreamHashes := [], notes := "", validationErrors := [] }
    docs := fun s => match s with
      | .analysis => some { blank := false, hash := "ha", sigs := [] }
      | .prd => some { blank := false, hash := "hp", sigs := [(.analysis, "ha")] }
      | _ => none
    reviewIssues := [] }

/-- Witness world for C6: every doc stage completed, and the external
review reports exactly one issue whose code classifies to prd. -/
def c6World : OrchWorld :=
  { stages := fun s => match s with
      | .finalCheck => { status := .running, agent := "qa", docHash := "",
                         upstreamHashes := [], notes := "", validationErrors := [] }
      | _ => { status := .completed, agent := "a", docHash := "h",
               upstreamHashes := [], notes := "", validationErrors := [] }
    docs := fun _ => none
    reviewIssues := [{ doc := "prd", question := "PRD 缺少非功能性需求，请补充。",
                       code := "prd.structure.missing_nfr" }] }

/-! ## Theorems -/

/-- Claim C1: for a requirement whose metadata file exists, a save with a
non-None expected_version fails with the version-conflict error exactly
when the on-disk version at write time differs from expected_version; on
success the record is written with version = on-disk version + 1 and that
new version is returned; on conflict the on-disk file is unchanged. -/
theorem c1_save_conflict_iff (d payload : MetaRecord) (e : Int) :
    (((saveMetadataFile (some d) payload false (some e)).2 =
        Except.error "metadata version conflict") ↔ e ≠ (metadataVersion d : Int))
    ∧ (e = (metadataVersion d : Int) →
        saveMetadataFile (some d) payload false (some e) =
          (some { payload with versionField := some ((metadataVersion d : Int) + 1) },
           Except.ok (metadataVersion d + 1)))
    ∧ (e ≠ (metadataVersion d : Int) →
        (saveMetadataFile (some d) payload false (some e)).1 = some d) := by
  refine ⟨?_, ?_, ?_⟩
  · constructor
    · intro h
      by_contra hne
      simp [saveMetadataFile, hne] at h
    · intro h
      simp [saveMetadataFile, h]
  · intro h
    simp [saveMetadataFile, h]
  · intro h
    simp [saveMetadataFile, h]

/-- Witness for C1 at a concrete record and version. -/
theorem c1_save_conflict_iff_witness :
    ((((saveMetadataFile (some ⟨some 3, []⟩) ⟨some 3, [("title", "t")]⟩ false (some 3)).2 =
        Except.error "metadata version conflict") ↔ (3 : Int) ≠ (metadataVersion ⟨some 3, []⟩ : Int))
    ∧ ((3 : Int) = (metadataVersion ⟨some 3, []⟩ : Int) →
        saveMetadataFile (some ⟨some 3, []⟩) ⟨some 3, [("title", "t")]⟩ false (some 3) =
          (some { (⟨some 3, [("title", "t")]⟩ : MetaRecord) with
                    versionField := some ((metadataVersion ⟨some 3, []⟩ : Int) + 1) },
           Except.ok (metadataVersion ⟨some 3, []⟩ + 1)))
    ∧ ((3 : Int) ≠ (metadataVersion ⟨some 3, []⟩ : Int) →
        (saveMetadataFile (some ⟨some 3, []⟩) ⟨some 3, [("title", "t")]⟩ false (some 3)).1 =
          some ⟨some 3, []⟩)) :=
  c1_save_conflict_iff ⟨some 3, []⟩ ⟨some 3, [("title", "t")]⟩ 3

/-- Helper: an iteration that sees the marker and does not reclaim it ends
in the timeout check. -/
theorem lockStep_of_exists_not_reclaim (staleSec timeoutSec : Int) (o : LockObs)
    (hex : o.lockExists = true) (hnr : lockStep staleSec timeoutSec o ≠ .reclaimed) :
    lockStep staleSec timeoutSec o =
      (if timeoutSec < o.elapsed then .timedOut else .sleep) := by
  unfold lockStep at hnr ⊢
  simp only [hex, Bool.not_true] at hnr ⊢
  split at hnr <;> simp_all

/-- Claim C2: a waiter deletes an existing marker exactly when the marker
age exceeds the staleness threshold and either the recorded owner is not
running, or it is running but both the recorded and the currently observed
start signatures are non-empty and differ; in every other case the marker
survives and the waiter sleeps and retries, failing with the lock-timeout
error once the elapsed time exceeds the timeout. -/
theorem c2_stale_lock_reclaim (staleSec timeoutSec : Int) :
    (∀ o : LockObs,
      lockStep staleSec timeoutSec o = .reclaimed ↔
        (o.lockExists = true
         ∧ (∃ a, o.age = some a ∧ staleSec < a)
         ∧ (ownerRunning o = false
            ∨ (ownerRunning o = true ∧ o.ownerSig ≠ "" ∧ o.osSig ≠ ""
               ∧ o.ownerSig ≠ o.osSig))))
    ∧ (∀ trace : List LockObs,
        (∀ o ∈ trace, o.lockExists = true ∧ lockStep staleSec timeoutSec o ≠ .reclaimed) →
        (∃ o ∈ trace, timeoutSec < o.elapsed) →
        acquireRun staleSec timeoutSec trace = some .timedOut) := by
  constructor
  · intro o
    rcases o with ⟨ex, pid, osig, run, csig, age, el⟩
    cases ex <;> cases age <;>
      simp [lockStep, ownerRunning] <;>
      split_ifs <;> simp_all
  · intro trace hall hex
    induction trace with
    | nil => simp at hex
    | cons o rest ih =>
      have ho := hall o (by simp)
      have hform := lockStep_of_exists_not_reclaim staleSec timeoutSec o ho.1 ho.2
      by_cases hto : timeoutSec < o.elapsed
      · rw [if_pos hto] at hform
        simp [acquireRun, hform]
      · rw [if_neg hto] at hform
        have hex' : ∃ x ∈ rest, timeoutSec < x.elapsed := by
          rcases hex with ⟨x, hx, hxe⟩
          rcases List.mem_cons.mp hx with rfl | hx'
          · exact absurd hxe hto
          · exact ⟨x, hx', hxe⟩
        simp only [acquireRun, hform]
        exact ih (fun x hx => hall x (List.mem_cons_of_mem _ hx)) hex'

/-- Witness for C2: a marker with a dead owner is reclaimable, and a
live fresh owner is never stolen regardless of age, so the waiter times
out once the elapsed time exceeds the timeout. -/
theorem c2_stale_lock_reclaim_witness :
    (lockStep 200 1000 ⟨true, some 42, "sig-a", false, "", some 300, 0⟩ = .reclaimed ↔
        ((true : Bool) = true
         ∧ (∃ a, (some (300 : Int) : Option Int) = some a ∧ (200 : Int) < a)
         ∧ (ownerRunning ⟨true, some 42, "sig-a", false, "", some 300, 0⟩ = false
            ∨ (ownerRunning ⟨true, some 42, "sig-a", false, "", some 300, 0⟩ = true
               ∧ ("sig-a" : String) ≠ "" ∧ ("" : String) ≠ ""
               ∧ ("sig-a" : String) ≠ ""))))
     ∧ (acquireRun 200 1000
          [⟨true, some 42, "sig-a", true, "sig-a", some 300, 500⟩,
           ⟨true, some 42, "sig-a", true, "sig-a", some 900, 1100⟩] = some .timedOut) := by
  refine ⟨(c2_stale_lock_reclaim 200 1000).1 _, ?_⟩
  exact (c2_stale_lock_reclaim 200 1000).2 _ (by decide) (by decide)

/-- Claim C9: for a marker recording a real owner process id (pid ≥ 1),
release unlinks the marker only when the releaser is the recorded owner:
its pid equals the recorded pid and, when a start signature is recorded
and the current one is obtainable, the two match; releasing a lock
recorded as owned by a different process deletes nothing (and the source
returns without raising). -/
theorem c9_release_only_owner (lockExists : Bool) (p myPid : Int)
    (ownerSig mySig : String) (hp : 1 ≤ p) :
    (releaseDeletes lockExists (some p) ownerSig myPid mySig = true →
      p = myPid ∧ (ownerSig ≠ "" → mySig ≠ "" → mySig = ownerSig))
    ∧ (p ≠ myPid →
        releaseDeletes lockExists (some p) ownerSig myPid mySig = false) := by
  constructor
  · intro h
    by_cases hex : lockExists
    · by_cases hpid : p = myPid
      · refine ⟨hpid, ?_⟩
        intro h1 h2
        by_contra h3
        simp [releaseDeletes, hex, hpid, h1, h2, h3] at h
      · exfalso
        have hz : p ≠ 0 := by omega
        simp [releaseDeletes, hex, hpid, hz] at h
    · simp [releaseDeletes, hex] at h
  · intro hpid
    by_cases hex : lockExists
    · have hz : p ≠ 0 := by omega
      simp [releaseDeletes, hex, hpid, hz]
    · simp [releaseDeletes, hex]

/-- Witness for C9: pid 7 recorded, releaser is pid 9. -/
theorem c9_release_only_owner_witness :
    (1 : Int) ≤ 7
    ∧ ((releaseDeletes true (some 7) "s1" 9 "s2" = true →
          (7 : Int) = 9 ∧ (("s1" : String) ≠ "" → ("s2" : String) ≠ "" → ("s2" : String) = "s1"))
       ∧ ((7 : Int) ≠ 9 → releaseDeletes true (some 7) "s1" 9 "s2" = false)) :=
  ⟨by decide, c9_release_only_owner true 7 9 "s1" "s2" (by decide)⟩

theorem initInv_initSys0 : initInv initSys0 := by
  refine ⟨?_, ?_, ?_, ?_, ?_⟩ <;> simp [initSys0, initInv]

theorem initInv_step (s : InitSys) (i : Fin 2) (h : initInv s) :
    initInv (initStep s i) := by
  obtain ⟨h1, h2, h3, h4, h5⟩ := h
  cases hpci : s.pc i with
  | start =>
    by_cases hfree : s.lockHeld = none
    · have hstep : initStep s i =
        { s with lockHeld := some i,
                 pc := fun j => if j = i then .inCrit else s.pc j } := by
        simp only [initStep, hpci, if_pos hfree]
      rw [hstep]
      refine ⟨?_, h2, ?_, ?_, ?_⟩
      · intro j hj
        by_cases hji : j = i
        · simp [hji]
        · exfalso
          have hj2 : s.pc j = .inCrit ∨ s.pc j = .created := by simpa [hji] using hj
          have := h1 j hj2
          rw [this] at hfree
          exact Option.noConfusion hfree
      · intro hmw
        refine ⟨(h3 hmw).1, ?_⟩
        intro j
        by_cases hji : j = i <;> simp [hji, (h3 hmw).2 j]
      · intro w hmw
        obtain ⟨hd, hv, hw⟩ := h4 w hmw
        have hwi : w ≠ i := by
          intro he
          rw [he, hpci] at hw
          rcases hw with hw | hw <;> exact InitPc.noConfusion hw
        exact ⟨hd, hv, by simpa [hwi] using hw⟩
      · intro j hj
        by_cases hji : j = i
        · simp [hji] at hj
        · exact h5 j (by simpa [hji] using hj)
    · have hstep : initStep s i = s := by
        simp only [initStep, hpci, if_neg hfree]
      rw [hstep]
      exact ⟨h1, h2, h3, h4, h5⟩
  | inCrit =>
    have hheld : s.lockHeld = some i := h1 i (Or.inl hpci)
    by_cases hdir : s.dirExists
    · have hstep : initStep s i =
        { s with lockHeld := none,
                 pc := fun j => if j = i then .doneExists else s.pc j } := by
        simp only [initStep, hpci, if_pos hdir]
      rw [hstep]
      refine ⟨?_, h2, ?_, ?_, ?_⟩
      · intro j hj
        by_cases hji : j = i
        · simp [hji] at hj
        · exfalso
          have := h1 j (by simpa [hji] using hj)
          rw [this] at hheld
          exact hji (Option.some.inj hheld)
      · intro hmw
        exact absurd (h3 hmw).1 (by simp [hdir])
      · intro w hmw
        obtain ⟨hd, hv, hw⟩ := h4 w hmw
        have hwi : w ≠ i := by
          intro he
          rw [he, hpci] at hw
          rcases hw with hw | hw <;> exact InitPc.noConfusion hw
        exact ⟨hd, hv, by simpa [hwi] using hw⟩
      · intro j hj
        by_cases hji : j = i
        · simp [hji] at hj
        · exact h5 j (by simpa [hji] using hj)
    · have hnil : s.metaWrites = [] := by
        rcases h2 with h | ⟨w, hw⟩
        · exact h
        · exact absurd (h4 w hw).1 (by simp [hdir])
      have hstep : initStep s i =
        { s with dirExists := true, metaWrites := s.metaWrites ++ [i], metaVersion := 1,
                 pc := fun j => if j = i then .created else s.pc j } := by
        simp only [initStep, hpci, if_neg hdir]
      rw [hstep]
      refine ⟨?_, ?_, ?_, ?_, ?_⟩
      · intro j hj
        by_cases hji : j = i
        · rw [hji]
          exact hheld
        · exfalso
          have := h1 j (by simpa [hji] using hj)
          rw [this] at hheld
          exact hji (Option.some.inj hheld)
      · right
        exact ⟨i, by simp [hnil]⟩
      · intro hmw
        exfalso
        simp [hnil] at hmw
      · intro w hmw
        have hiw : i = w := by simpa [hnil] using hmw
        subst hiw
        exact ⟨rfl, rfl, Or.inl (by simp)⟩
      · intro j hj
        by_cases hji : j = i
        · simp [hji, hnil]
        · exfalso
          have := h5 j (by simpa [hji] using hj)
          rw [hnil] at this
          exact List.noConfusion this
  | created =>
    have hw : s.metaWrites = [i] := h5 i (Or.inl hpci)
    have hheld : s.lockHeld = some i := h1 i (Or.inr hpci)
    have hstep : initStep s i =
      { s with lockHeld := none,
               pc := fun j => if j = i then .doneOk else s.pc j } := by
      simp only [initStep, hpci]
    rw [hstep]
    refine ⟨?_, h2, ?_, ?_, ?_⟩
    · intro j hj
      by_cases hji : j = i
      · simp [hji] at hj
      · exfalso
        have := h1 j (by simpa [hji] using hj)
        rw [this] at hheld
        exact hji (Option.some.inj hheld)
    · intro hmw
      rw [hw] at hmw
      exact List.noConfusion hmw
    · intro w2 hmw
      obtain ⟨hd, hv, hpcw⟩ := h4 w2 hmw
      have hiw : i = w2 := by simpa using (hw.symm.trans hmw)
      subst hiw
      exact ⟨hd, hv, Or.inr (by simp)⟩
    · intro j hj
      by_cases hji : j = i
      · rw [hji]
        exact hw
      · exfalso
        have := h5 j (by simpa [hji] using hj)
        have hij : i = j := by simpa using (hw.symm.trans this)
        exact hji hij.symm
  | doneOk =>
    have hstep : initStep s i = s := by simp only [initStep, hpci]
    rw [hstep]
    exact ⟨h1, h2, h3, h4, h5⟩
  | doneExists =>
    have hstep : initStep s i = s := by simp only [initStep, hpci]
    rw [hstep]
    exact ⟨h1, h2, h3, h4, h5⟩

theorem initInv_run (sched : List (Fin 2)) : initInv (initRun sched) := by
  unfold initRun
  induction sched using List.reverseRecOn with
  | nil => exact initInv_initSys0
  | append_singleton l i ih =>
    rw [List.foldl_append]
    exact initInv_step _ i ih

/-- Case split helper for an index of a two-process system. -/
theorem fin2Cases (w : Fin 2) : w = 0 ∨ w = 1 := by
  fin_cases w
  · left; rfl
  · right; rfl

/-- Claim C3: in every schedule of two init invocations with the same
explicitly requested name and date in which both processes finish, exactly
one succeeds having created the directory and the initial metadata with
version 1 (written exactly once, never overwritten), and the other fails
with the "requirement already exists" error; mutual exclusion is provided
by the atomic O_CREAT|O_EXCL creation of the requirement lock marker. -/
theorem c3_init_race_exactly_one_winner (sched : List (Fin 2))
    (h0 : initDone (initRun sched) 0) (h1 : initDone (initRun sched) 1) :
    ((initRun sched).metaVersion = 1 ∧ (initRun sched).dirExists = true)
    ∧ (((initRun sched).pc 0 = .doneOk ∧ (initRun sched).pc 1 = .doneExists
         ∧ (initRun sched).metaWrites = [0])
       ∨ ((initRun sched).pc 1 = .doneOk ∧ (initRun sched).pc 0 = .doneExists
         ∧ (initRun sched).metaWrites = [1])) := by
  obtain ⟨hl, h2, h3, h4, h5⟩ := initInv_run sched
  rcases h2 with hnil | ⟨w, hw⟩
  · exfalso
    obtain ⟨-, hbad⟩ := h3 hnil
    rcases h0 with h | h
    · exact (hbad 0).2.1 h
    · exact (hbad 0).2.2 h
  · obtain ⟨hd, hv, hpcw⟩ := h4 w hw
    refine ⟨⟨hv, hd⟩, ?_⟩
    have hwin : ∀ v : Fin 2, initDone (initRun sched) v → (initRun sched).metaWrites = [v] →
        (initRun sched).pc v = .doneOk := by
      intro v hdone hmv
      rcases hdone with hh | hh
      · exact hh
      · exfalso
        have hiv : w = v := by simpa using (hw.symm.trans hmv)
        subst hiv
        rcases hpcw with h | h <;> rw [hh] at h <;> exact InitPc.noConfusion h
    have hlose : ∀ v : Fin 2, initDone (initRun sched) v →
        (initRun sched).metaWrites ≠ [v] → (initRun sched).pc v = .doneExists := by
      intro v hdone hmv
      rcases hdone with hh | hh
      · exact absurd (h5 v (Or.inr hh)) hmv
      · exact hh
    rcases fin2Cases w with rfl | rfl
    · left
      refine ⟨hwin 0 h0 hw, hlose 1 h1 ?_, hw⟩
      rw [hw]
      decide
    · right
      refine ⟨hwin 1 h1 hw, hlose 0 h0 ?_, hw⟩
      rw [hw]
      decide

/-- Witness for C3: the schedule where process 0 runs to completion first
and process 1 then observes the existing requirement. -/
theorem c3_init_race_exactly_one_winner_witness :
    (initDone (initRun [0, 0, 0, 1, 1]) 0 ∧ initDone (initRun [0, 0, 0, 1, 1]) 1)
    ∧ (((initRun [0, 0, 0, 1, 1]).metaVersion = 1
         ∧ (initRun [0, 0, 0, 1, 1]).dirExists = true)
       ∧ (((initRun [0, 0, 0, 1, 1]).pc 0 = .doneOk
            ∧ (initRun [0, 0, 0, 1, 1]).pc 1 = .doneExists
            ∧ (initRun [0, 0, 0, 1, 1]).metaWrites = [0])
          ∨ ((initRun [0, 0, 0, 1, 1]).pc 1 = .doneOk
            ∧ (initRun [0, 0, 0, 1, 1]).pc 0 = .doneExists
            ∧ (initRun [0, 0, 0, 1, 1]).metaWrites = [1]))) :=
  ⟨⟨by decide, by decide⟩,
   c3_init_race_exactly_one_winner [0, 0, 0, 1, 1] (by decide) (by decide)⟩

/-- Claim C10: with expected_version = None (the default) no version
comparison happens: the save never raises a version conflict and
unconditionally overwrites the on-disk record with the disk version plus
one, so optimistic-concurrency protection is opt-in per call site. -/
theorem c10_save_without_expected_never_conflicts (d payload : MetaRecord) :
    saveMetadataFile (some d) payload false none =
      (some { payload with versionField := some ((metadataVersion d : Int) + 1) },
       Except.ok (metadataVersion d + 1)) := by
  simp [saveMetadataFile]

theorem findPat_some_bound (pat : List Char) :
    ∀ (text : List Char) (i : Nat), findPat pat text = some i → i + pat.length ≤ text.length := by
  intro text
  induction text with
  | nil =>
    intro i h
    simp only [findPat] at h
    split at h
    · simp_all [List.isEmpty_iff]
    · exact Option.noConfusion h
  | cons c rest ih =>
    intro i h
    simp only [findPat] at h
    split at h
    · rename_i hpre
      have hle := (List.isPrefixOf_iff_prefix.mp hpre).length_le
      simp only [Option.some.injEq] at h
      subst h
      simpa using hle
    · rcases Option.map_eq_some'.mp h with ⟨k, hk, rfl⟩
      have := ih k hk
      simp only [List.length_cons]
      omega

theorem removeBlocks_nil (startM endM : List Char) (hS : 1 ≤ startM.length) (f : Nat) :
    removeBlocks startM endM f [] = [] := by
  cases f with
  | zero => rfl
  | succ f =>
    have hne : ¬ startM.isEmpty = true := by
      cases startM
      · simp at hS
      · simp
    simp only [removeBlocks, findPat]
    rw [if_neg hne]

theorem removeBlocks_fuel_congr (startM endM : List Char) (hS : 1 ≤ startM.length) :
    ∀ (n : Nat) (text : List Char) (f1 f2 : Nat), text.length ≤ n →
      text.length ≤ f1 → text.length ≤ f2 →
      removeBlocks startM endM f1 text = removeBlocks startM endM f2 text := by
  intro n
  induction n with
  | zero =>
    intro text f1 f2 hn _ _
    have htext : text = [] := List.eq_nil_of_length_eq_zero (Nat.le_zero.mp hn)
    subst htext
    rw [removeBlocks_nil startM endM hS, removeBlocks_nil startM endM hS]
  | succ n ih =>
    intro text f1 f2 hn h1 h2
    cases f1 with
    | zero =>
      have htext : text = [] := List.eq_nil_of_length_eq_zero (Nat.le_zero.mp h1)
      subst htext
      rw [removeBlocks_nil startM endM hS, removeBlocks_nil startM endM hS]
    | succ f1 =>
      cases f2 with
      | zero =>
        have htext : text = [] := List.eq_nil_of_length_eq_zero (Nat.le_zero.mp h2)
        subst htext
        rw [removeBlocks_nil startM endM hS, removeBlocks_nil startM endM hS]
      | succ f2 =>
        simp only [removeBlocks]
        cases hfs : findPat startM text with
        | none => rfl
        | some i =>
          dsimp only
          cases hfe : findPat endM (text.drop (i + startM.length)) with
          | none => rfl
          | some j =>
            have hb1 := findPat_some_bound startM text i hfs
            have hb2 := findPat_some_bound endM _ j hfe
            rw [List.length_drop] at hb2
            dsimp only
            congr 1
            refine ih _ f1 f2 ?_ ?_ ?_ <;>
              simp only [List.length_drop] <;> omega

theorem removeBlocks_once (startM endM pre mid suf : List Char) (f : Nat)
    (h1 : findPat startM (pre ++ startM ++ mid ++ endM ++ suf) = some pre.length)
    (h2 : findPat endM (mid ++ endM ++ suf) = some mid.length) :
    removeBlocks startM endM (f + 1) (pre ++ startM ++ mid ++ endM ++ suf)
      = pre ++ removeBlocks startM endM f suf := by
  have hdrop1 : (pre ++ startM ++ mid ++ endM ++ suf).drop (pre.length + startM.length)
      = mid ++ endM ++ suf := by
    have : pre ++ startM ++ mid ++ endM ++ suf
        = (pre ++ startM) ++ (mid ++ endM ++ suf) := by
      simp [List.append_assoc]
    rw [this, ← List.length_append, List.drop_left]
  have hdrop2 : (mid ++ endM ++ suf).drop (mid.length + endM.length) = suf := by
    have : mid ++ endM ++ suf = (mid ++ endM) ++ suf := by
      simp [List.append_assoc]
    rw [this, ← List.length_append, List.drop_left]
  have htake : (pre ++ startM ++ mid ++ endM ++ suf).take pre.length = pre := by
    have : pre ++ startM ++ mid ++ endM ++ suf
        = pre ++ (startM ++ mid ++ endM ++ suf) := by
      simp [List.append_assoc]
    rw [this, List.take_left]
  simp only [removeBlocks, h1]
  rw [hdrop1, h2]
  dsimp only
  rw [hdrop2, htake]

/-- Claim C8: two documents identical outside the clarification regions
delimited by the CLARIFICATIONS markers hash identically: the digest
depends only on the text with every delimited region removed (first
conjunct), and in particular replacing the contents of a delimited block
leaves the digest unchanged (second conjunct). -/
theorem c8_content_hash_ignores_clarifications :
    (∀ (md5hex : List Char → List Char) (s1 s2 : List Char),
        stripClarificationBlock s1 = stripClarificationBlock s2 →
        contentHashWithoutClarifications md5hex s1
          = contentHashWithoutClarifications md5hex s2)
    ∧ (∀ (md5hex : List Char → List Char) (pre mid1 mid2 suf : List Char),
        findPat clarifyStartMarker
            (pre ++ clarifyStartMarker ++ mid1 ++ clarifyEndMarker ++ suf) = some pre.length →
        findPat clarifyEndMarker (mid1 ++ clarifyEndMarker ++ suf) = some mid1.length →
        findPat clarifyStartMarker
            (pre ++ clarifyStartMarker ++ mid2 ++ clarifyEndMarker ++ suf) = some pre.length →
        findPat clarifyEndMarker (mid2 ++ clarifyEndMarker ++ suf) = some mid2.length →
        contentHashWithoutClarifications md5hex
            (pre ++ clarifyStartMarker ++ mid1 ++ clarifyEndMarker ++ suf)
          = contentHashWithoutClarifications md5hex
            (pre ++ clarifyStartMarker ++ mid2 ++ clarifyEndMarker ++ suf)) := by
  have hS : 1 ≤ clarifyStartMarker.length := by decide
  constructor
  · intro md5hex s1 s2 h
    unfold contentHashWithoutClarifications
    rw [h]
  · intro md5hex pre mid1 mid2 suf ha1 ha2 hb1 hb2
    have hstrip : ∀ mid : List Char,
        findPat clarifyStartMarker
            (pre ++ clarifyStartMarker ++ mid ++ clarifyEndMarker ++ suf) = some pre.length →
        findPat clarifyEndMarker (mid ++ clarifyEndMarker ++ suf) = some mid.length →
        stripClarificationBlock
            (pre ++ clarifyStartMarker ++ mid ++ clarifyEndMarker ++ suf)
          = pre ++ removeBlocks clarifyStartMarker clarifyEndMarker suf.length suf := by
      intro mid hm1 hm2
      unfold stripClarificationBlock
      have hlen : (pre ++ clarifyStartMarker ++ mid ++ clarifyEndMarker ++ suf).length
          = (pre.length + clarifyStartMarker.length + mid.length
              + clarifyEndMarker.length + suf.length - 1) + 1 := by
        simp only [List.length_append]
        omega
      rw [hlen, removeBlocks_once _ _ _ _ _ _ hm1 hm2]
      congr 1
      refine removeBlocks_fuel_congr _ _ hS
        (pre.length + clarifyStartMarker.length + mid.length
          + clarifyEndMarker.length + suf.length - 1) suf _ _ ?_ ?_ ?_ <;> omega
    unfold contentHashWithoutClarifications
    rw [hstrip mid1 ha1 ha2, hstrip mid2 hb1 hb2]

/-- Witness for C8: two concrete documents differing only inside the
clarification block hash identically. -/
theorem c8_content_hash_ignores_clarifications_witness :
    stripClarificationBlock ("ab".toList ++ clarifyStartMarker ++ "q".toList
        ++ clarifyEndMarker ++ "cd".toList)
      = stripClarificationBlock ("ab".toList ++ clarifyStartMarker ++ "rr".toList
        ++ clarifyEndMarker ++ "cd".toList)
    ∧ contentHashWithoutClarifications (fun l => l.reverse)
        ("ab".toList ++ clarifyStartMarker ++ "q".toList ++ clarifyEndMarker ++ "cd".toList)
      = contentHashWithoutClarifications (fun l => l.reverse)
        ("ab".toList ++ clarifyStartMarker ++ "rr".toList ++ clarifyEndMarker ++ "cd".toList) := by
  have hstrip : stripClarificationBlock ("ab".toList ++ clarifyStartMarker ++ "q".toList
        ++ clarifyEndMarker ++ "cd".toList)
      = stripClarificationBlock ("ab".toList ++ clarifyStartMarker ++ "rr".toList
        ++ clarifyEndMarker ++ "cd".toList) :=
    c8_content_hash_ignores_clarifications.2 (fun l => l)
      "ab".toList "q".toList "rr".toList "cd".toList
      (by decide) (by decide) (by decide) (by decide)
  exact ⟨hstrip,
    c8_content_hash_ignores_clarifications.1 (fun l => l.reverse) _ _ hstrip⟩

/-- Helper: a downstream document whose own hash still equals the recorded
snapshot hash, with a drifted upstream, contributes a stale_downstream
issue. -/
theorem stale_mem_depIssuesFor (w : DepCheckWorld) (d : Stage) (h : String)
    (hdoc : w.docHash d = some h) (hne : h ≠ "")
    (hups : ∀ u ∈ chainUpstreams d, (w.docHash u).isSome)
    (hsnap : w.snapDocHash d = h)
    (hdrift : ∃ u ∈ chainUpstreams d, w.snapUp d u ≠ (w.docHash u).getD "") :
    DepIssue.staleDownstream d ∈ depIssuesFor w d := by
  unfold depIssuesFor
  rw [hdoc]
  have hany : (chainUpstreams d).any (fun u => (w.docHash u).isNone) = false := by
    rw [List.any_eq_false]
    intro u hu
    have := hups u hu
    simp [Option.isNone_iff_eq_none]
    exact Option.isSome_iff_exists.mp this |>.elim (fun v hv => by simp [hv])
  simp only [hany, Bool.false_eq_true, if_false]
  have hcond : ((w.snapDocHash d == "" || w.snapDocHash d != h) &&
      ((chainUpstreams d).all (fun u => (sigLookup (w.sigs d) u).isSome) &&
        ((chainUpstreams d).map (fun u => (u, (w.docHash u).getD ""))).all
          (fun p => (sigLookup (w.sigs d) p.1).getD "" == p.2))) = false := by
    simp [hsnap, hne]
  rw [hcond]
  simp only [Bool.false_eq_true, if_false]
  have hstale : ((chainUpstreams d).map (fun u => (u, (w.docHash u).getD ""))).any
      (fun p => w.snapUp d p.1 != p.2) = true := by
    rw [List.any_eq_true]
    rcases hdrift with ⟨u, hu, hud⟩
    exact ⟨(u, (w.docHash u).getD ""), List.mem_map_of_mem _ hu, by simpa using hud⟩
  rw [hstale]
  simp

/-- Helper: a document whose signatures are complete and match the current
upstream hashes and whose snapshot is coherent contributes no issue. -/
theorem depIssuesFor_eq_nil (w : DepCheckWorld) (d : Stage)
    (hfresh : (w.docHash d).isSome →
      (∀ u ∈ chainUpstreams d, (w.docHash u).isSome) →
      ((∀ u ∈ chainUpstreams d, sigLookup (w.sigs d) u = some ((w.docHash u).getD ""))
       ∧ (w.snapDocHash d = (w.docHash d).getD "" →
           ∀ u ∈ chainUpstreams d, w.snapUp d u = (w.docHash u).getD ""))) :
    depIssuesFor w d = [] := by
  unfold depIssuesFor
  cases hdoc : w.docHash d with
  | none => rfl
  | some h =>
    by_cases hups : ∀ u ∈ chainUpstreams d, (w.docHash u).isSome
    · have hany : (chainUpstreams d).any (fun u => (w.docHash u).isNone) = false := by
        rw [List.any_eq_false]
        intro u hu
        have := hups u hu
        simp [Option.isNone_iff_eq_none]
        exact Option.isSome_iff_exists.mp this |>.elim (fun v hv => by simp [hv])
      simp only [hany, Bool.false_eq_true, if_false]
      obtain ⟨hsig, hsnap⟩ := hfresh (by simp [hdoc]) hups
      have hAll : (chainUpstreams d).all
          (fun u => (sigLookup (w.sigs d) u).isSome) = true := by
        rw [List.all_eq_true]
        intro u hu
        simp [hsig u hu]
      have hMatch : ((chainUpstreams d).map (fun u => (u, (w.docHash u).getD ""))).all
          (fun p => (sigLookup (w.sigs d) p.1).getD "" == p.2) = true := by
        rw [List.all_eq_true]
        intro p hp
        rcases List.mem_map.mp hp with ⟨u, hu, rfl⟩
        simp [hsig u hu]
      simp only [hAll, hMatch, Bool.not_true, Bool.false_eq_true, if_false,
        Bool.and_true, Bool.true_and]
      by_cases hcur : w.snapDocHash d = h
      · by_cases hemp : h = ""
        · have : (w.snapDocHash d == "" || w.snapDocHash d != h) = true := by
            simp [hcur, hemp]
          rw [this]
          simp
        · have hcond : (w.snapDocHash d == "" || w.snapDocHash d != h) = false := by
            simp [hcur, hemp]
          rw [hcond]
          simp only [Bool.false_eq_true, if_false]
          have hstale : ((chainUpstreams d).map (fun u => (u, (w.docHash u).getD ""))).any
              (fun p => w.snapUp d p.1 != p.2) = false := by
            rw [List.any_eq_false]
            intro p hp
            rcases List.mem_map.mp hp with ⟨u, hu, rfl⟩
            simp [hsnap (by simp [hdoc, hcur]) u hu]
          rw [hstale]
          simp
      · have : (w.snapDocHash d == "" || w.snapDocHash d != h) = true := by
          simp [hcur]
        rw [this]
        simp
    · have hany : (chainUpstreams d).any (fun u => (w.docHash u).isNone) = true := by
        rw [List.any_eq_true]
        push_neg at hups
        rcases hups with ⟨u, hu, hnone⟩
        refine ⟨u, hu, ?_⟩
        simp only [Option.isNone_iff_eq_none]
        exact Option.not_isSome_iff_eq_none.mp (by simpa using hnone)
      simp [hany]
/-- Claim C4: over the fixed chain (prd after analysis; tech after
analysis+prd; acceptance after analysis+prd+tech), a downstream document
whose current content hash equals the snapshot doc_hash gets a
stale_downstream issue whenever some upstream current hash differs from
the snapshot; and documents generated in order with embedded signatures
matching the current upstream hashes produce zero dependency issues. -/
theorem c4_freshness_stale_downstream :
    (∀ (w : DepCheckWorld) (d : Stage) (h : String),
       d ∈ downstreamDocs → w.docHash d = some h → h ≠ "" →
       (∀ u ∈ chainUpstreams d, (w.docHash u).isSome) →
       w.snapDocHash d = h →
       (∃ u ∈ chainUpstreams d, w.snapUp d u ≠ (w.docHash u).getD "") →
       DepIssue.staleDownstream d ∈ depFreshnessIssues w)
    ∧ (∀ w : DepCheckWorld,
       (∀ d ∈ downstreamDocs, (w.docHash d).isSome →
         (∀ u ∈ chainUpstreams d, (w.docHash u).isSome) →
         ((∀ u ∈ chainUpstreams d, sigLookup (w.sigs d) u = some ((w.docHash u).getD ""))
          ∧ (w.snapDocHash d = (w.docHash d).getD "" →
              ∀ u ∈ chainUpstreams d, w.snapUp d u = (w.docHash u).getD ""))) →
       depFreshnessIssues w = []) := by
  constructor
  · intro w d h hd hdoc hne hups hsnap hdrift
    have hmem := stale_mem_depIssuesFor w d h hdoc hne hups hsnap hdrift
    unfold depFreshnessIssues
    have hd3 : d = .prd ∨ d = .tech ∨ d = .acceptance := by
      simpa [downstreamDocs] using hd
    rcases hd3 with rfl | rfl | rfl
    · exact List.mem_append_left _ (List.mem_append_left _ hmem)
    · exact List.mem_append_left _ (List.mem_append_right _ hmem)
    · exact List.mem_append_right _ hmem
  · intro w hall
    unfold depFreshnessIssues
    rw [depIssuesFor_eq_nil w .prd (hall _ (by simp [downstreamDocs])),
        depIssuesFor_eq_nil w .tech (hall _ (by simp [downstreamDocs])),
        depIssuesFor_eq_nil w .acceptance (hall _ (by simp [downstreamDocs]))]
    rfl

/-- Witness for C4: a mutated upstream behind an unchanged prd yields
stale_downstream; a fully fresh consistent chain yields no issue. -/
theorem c4_freshness_stale_downstream_witness :
    DepIssue.staleDownstream .prd ∈ depFreshnessIssues c4WorldStale
    ∧ depFreshnessIssues c4WorldFresh = [] :=
  ⟨c4_freshness_stale_downstream.1 c4WorldStale .prd "hp"
     (by decide) (by decide) (by decide) (by decide) (by decide) (by decide),
   c4_freshness_stale_downstream.2 c4WorldFresh (by decide)⟩


/-- Helper: every stage is listed in SUBAGENT_STAGE_ORDER. -/
theorem mem_stageOrder (s : Stage) : s ∈ stageOrder := by
  cases s <;> simp [stageOrder]

/-- Helper: only a completed stage can be detected stale. -/
theorem staleStage_completed (w : OrchWorld) (s : Stage)
    (h : staleStage w s = true) : (w.stages s).status = .completed := by
  unfold staleStage at h
  split at h
  · exact absurd h (by simp)
  · rename_i hc
    exact not_ne_iff.mp hc

/-- Claim C7: subagent_status without the normalize flag never writes the
metadata file — the persisted stage states after the call equal those
before, even when staleness is detected and reported in stale_stages —
while the same call with normalize persists every detected stale completed
stage downgraded to pending (and leaves the other stages untouched). -/
theorem c7_status_preview_vs_normalize (w : OrchWorld) :
    ((subagentStatus w false).saved = false
     ∧ (subagentStatus w false).persistedStages = w.stages
     ∧ (subagentStatus w false).staleStages = (subagentStatus w true).staleStages)
    ∧ (∀ s, s ∈ (subagentStatus w true).staleStages →
        ((subagentStatus w true).persistedStages s).status = .pending)
    ∧ (∀ s, s ∉ (subagentStatus w true).staleStages →
        (subagentStatus w true).persistedStages s = w.stages s) := by
  refine ⟨⟨?_, ?_, ?_⟩, ?_, ?_⟩
  · simp [subagentStatus]
  · simp [subagentStatus]
  · rfl
  · intro s hs
    have hstale : staleStage w s = true := (List.mem_filter.mp hs).2
    have hchanged : (stageOrder.any (fun t =>
        staleStage w t && decide ((w.stages t).status ≠ .pending))) = true := by
      rw [List.any_eq_true]
      refine ⟨s, mem_stageOrder s, ?_⟩
      rw [hstale, staleStage_completed w s hstale]
      simp
    simp only [subagentStatus, hchanged, Bool.and_true, Bool.true_and, if_pos]
    simp [hstale]
  · intro s hns
    have hstale : staleStage w s = false := by
      by_contra hc
      exact hns (List.mem_filter.mpr ⟨mem_stageOrder s,
        Bool.of_not_eq_false hc⟩)
    simp only [subagentStatus]
    split
    · simp [hstale]
    · rfl

/-- Witness for C7 at a world with a stale completed analysis stage. -/
theorem c7_status_preview_vs_normalize_witness :
    (((subagentStatus c7World false).saved = false
     ∧ (subagentStatus c7World false).persistedStages = c7World.stages
     ∧ (subagentStatus c7World false).staleStages
        = (subagentStatus c7World true).staleStages)
    ∧ (∀ s, s ∈ (subagentStatus c7World true).staleStages →
        ((subagentStatus c7World true).persistedStages s).status = .pending)
    ∧ (∀ s, s ∉ (subagentStatus c7World true).staleStages →
        (subagentStatus c7World true).persistedStages s = c7World.stages s)) :=
  c7_status_preview_vs_normalize c7World


/-- Claim C5: without force, a transition to completed succeeds exactly
when every declared dependency stage is completed and stage-specific
output validation passes; a dependency failure raises the blocked error
listing each unmet dependency, a validation failure raises the
validation-failed error with the specific failure strings; for doc stages
validation demands an existing non-empty document whose embedded
signature entry for every (existing) upstream equals that upstream
current content hash, and for final_check it demands that the external
review in non-mutating mode returns no issues. -/
theorem c5_completed_requires_deps_and_validation (w : OrchWorld)
    (lr : Option ReopenInfo) (stage : Stage) (agent notes : String) :
    (validateStageDependencies w.stages stage = [] ↔
       ∀ d ∈ stageDeps stage, (w.stages d).status = .completed)
    ∧ (validateStageDependencies w.stages stage ≠ [] →
        updateSubagentStage w lr stage .completed agent notes false
          = .error (.blocked stage (validateStageDependencies w.stages stage)))
    ∧ (validateStageDependencies w.stages stage = [] →
        isDocStage stage = true →
        (validateDocStageCompletion w stage (stageUpstreamHashes w stage)).2 ≠ [] →
        updateSubagentStage w lr stage .completed agent notes false
          = .error (.validationFailed stage
              (validateDocStageCompletion w stage (stageUpstreamHashes w stage)).2))
    ∧ (validateStageDependencies w.stages stage = [] →
        stage = .finalCheck →
        validateFinalCheckStage w ≠ [] →
        updateSubagentStage w lr stage .completed agent notes false
          = .error (.validationFailed stage (validateFinalCheckStage w)))
    ∧ ((∃ r, updateSubagentStage w lr stage .completed agent notes false
          = .ok r) ↔
        (validateStageDependencies w.stages stage = []
         ∧ (if isDocStage stage then
              (validateDocStageCompletion w stage (stageUpstreamHashes w stage)).2
            else validateFinalCheckStage w) = []))
    ∧ (isDocStage stage = true →
        ((validateDocStageCompletion w stage (stageUpstreamHashes w stage)).2 = [] ↔
          ∃ info, w.docs stage = some info ∧ info.blank = false ∧
            ((stage = .prd ∨ stage = .tech ∨ stage = .acceptance) →
              ∀ p ∈ stageUpstreamHashes w stage,
                sigLookup info.sigs p.1 = some p.2)))
    ∧ (validateFinalCheckStage w = [] ↔ w.reviewIssues = []) := by
  refine ⟨?_, ?_, ?_, ?_, ?_, ?_, ?_⟩
  · rw [validateStageDependencies, List.filterMap_eq_nil_iff]
    constructor
    · intro h d hd
      have := h d hd
      split at this
      · exact Option.noConfusion this
      · rename_i hc
        exact not_ne_iff.mp hc
    · intro h d hd
      rw [if_neg]
      intro hc
      exact hc (h d hd)
  · intro hdep
    have h1 : (validateStageDependencies w.stages stage).isEmpty = false := by
      simpa [List.isEmpty_iff] using hdep
    simp [updateSubagentStage, h1]
  · intro hdep hdoc hverr
    have h1 : (validateStageDependencies w.stages stage).isEmpty = true := by
      simpa [List.isEmpty_iff] using hdep
    have h2 : ((validateDocStageCompletion w stage
        (stageUpstreamHashes w stage)).2).isEmpty = false := by
      simpa [List.isEmpty_iff] using hverr
    simp [updateSubagentStage, h1, hdoc, h2]
  · intro hdep hfc hverr
    subst hfc
    have h1 : (validateStageDependencies w.stages .finalCheck).isEmpty = true := by
      simpa [List.isEmpty_iff] using hdep
    have h2 : (validateFinalCheckStage w).isEmpty = false := by
      simpa [List.isEmpty_iff] using hverr
    simp [updateSubagentStage, h1, h2, isDocStage]
  · constructor
    · rintro ⟨r, hr⟩
      by_cases hdep : validateStageDependencies w.stages stage = []
      · refine ⟨hdep, ?_⟩
        by_cases hdoc : isDocStage stage = true
        · rw [if_pos hdoc]
          by_contra hverr
          have h1 : (validateStageDependencies w.stages stage).isEmpty = true := by
            simpa [List.isEmpty_iff] using hdep
          have h2 : ((validateDocStageCompletion w stage
              (stageUpstreamHashes w stage)).2).isEmpty = false := by
            simpa [List.isEmpty_iff] using hverr
          rw [updateSubagentStage] at hr
          simp [h1, hdoc, h2] at hr
        · rw [if_neg hdoc]
          by_contra hverr
          have h1 : (validateStageDependencies w.stages stage).isEmpty = true := by
            simpa [List.isEmpty_iff] using hdep
          have h2 : (validateFinalCheckStage w).isEmpty = false := by
            simpa [List.isEmpty_iff] using hverr
          have hdoc2 : isDocStage stage = false := Bool.eq_false_of_ne_true hdoc
          rw [updateSubagentStage] at hr
          simp [h1, hdoc2, h2] at hr
      · exfalso
        have h1 : (validateStageDependencies w.stages stage).isEmpty = false := by
          simpa [List.isEmpty_iff] using hdep
        rw [updateSubagentStage] at hr
        simp [h1] at hr
    · rintro ⟨hdep, hverr⟩
      have h1 : (validateStageDependencies w.stages stage).isEmpty = true := by
        simpa [List.isEmpty_iff] using hdep
      by_cases hdoc : isDocStage stage = true
      · rw [if_pos hdoc] at hverr
        have h2 : ((validateDocStageCompletion w stage
            (stageUpstreamHashes w stage)).2).isEmpty = true := by
          simpa [List.isEmpty_iff] using hverr
        simp [updateSubagentStage, h1, hdoc, h2]
      · rw [if_neg hdoc] at hverr
        have h2 : (validateFinalCheckStage w).isEmpty = true := by
          simpa [List.isEmpty_iff] using hverr
        have hdoc2 : isDocStage stage = false := Bool.eq_false_of_ne_true hdoc
        simp [updateSubagentStage, h1, hdoc2, h2]
  · intro hdoc
    rw [validateDocStageCompletion, if_neg (by simp [hdoc])]
    cases hd : w.docs stage with
    | none => simp
    | some info =>
      dsimp only
      by_cases hblank : info.blank
      · simp [hblank]
      · have hb : info.blank = false := Bool.eq_false_of_ne_true hblank
        by_cases hsig : stage = .prd ∨ stage = .tech ∨ stage = .acceptance
        · rw [if_pos hsig]
          simp only [hb, Bool.false_eq_true, if_false]
          rw [List.filterMap_eq_nil_iff]
          constructor
          · intro h
            refine ⟨info, rfl, hb, fun _ p hp => ?_⟩
            have := h p hp
            cases hl : sigLookup info.sigs p.1 with
            | none => rw [hl] at this; exact Option.noConfusion this
            | some v =>
              rw [hl] at this
              dsimp only at this
              have hv : v = p.2 := by
                by_contra hvne
                rw [if_pos hvne] at this
                exact Option.noConfusion this
              rw [hv]
          · rintro ⟨info2, hinfo2, -, himp⟩ p hp
            have hii : info2 = info := (Option.some.inj hinfo2).symm
            subst hii
            rw [himp hsig p hp]
            dsimp only
            rw [if_neg (by simp)]
        · simp only [hb, Bool.false_eq_true, if_false, if_neg hsig]
          constructor
          · intro _
            exact ⟨info, rfl, hb, fun hc => absurd hc hsig⟩
          · intro _
            trivial
  · rw [validateFinalCheckStage]
    rw [List.map_eq_nil_iff]


/-- Witness for C5: completing prd succeeds in c5World, while completing
tech is blocked on its unmet prd dependency. -/
theorem c5_completed_requires_deps_and_validation_witness :
    (∃ r, updateSubagentStage c5World none .prd .completed "coder" "done" false
        = .ok r)
    ∧ updateSubagentStage c5World none .tech .completed "coder" "" false
        = .error (.blocked .tech (validateStageDependencies c5World.stages .tech)) :=
  ⟨(c5_completed_requires_deps_and_validation c5World none .prd "coder"
      "done").2.2.2.2.1.mpr ⟨by decide, by decide⟩,
   (c5_completed_requires_deps_and_validation c5World none .tech "coder"
      "").2.1 (by decide)⟩


/-- Helper: the keyword fallback lands on a reopen-order stage. -/
theorem classifyFromQuestion_mem_reopenOrder (q : String) :
    classifyFromQuestion q ∈ reopenOrder := by
  unfold classifyFromQuestion
  split_ifs <;> simp [reopenOrder]

/-- Helper: the doc-field map lands on a reopen-order stage. -/
theorem classifyFromDoc_mem_reopenOrder (doc : String) (s : Stage)
    (h : classifyFromDoc doc = some s) : s ∈ reopenOrder := by
  unfold classifyFromDoc at h
  split_ifs at h <;>
    first
      | exact Option.noConfusion h
      | (rw [← Option.some.inj h]; simp [reopenOrder])

/-- Helper: classification always lands on one of the four document stages
of the reopen order. -/
theorem classifyRest_mem_reopenOrder (it : Issue) :
    classifyRest it ∈ reopenOrder := by
  unfold classifyRest
  cases hd : classifyFromDoc it.doc with
  | none => exact classifyFromQuestion_mem_reopenOrder it.question
  | some s => exact classifyFromDoc_mem_reopenOrder it.doc s hd

/-- Helper: classification always lands on one of the four document stages
of the reopen order. -/
theorem classifyIssueToStage_mem_reopenOrder (it : Issue) :
    classifyIssueToStage it ∈ reopenOrder := by
  unfold classifyIssueToStage
  split_ifs <;> first | exact classifyRest_mem_reopenOrder it | simp [reopenOrder]

/-- Helper: final_check is never among the reopened stages. -/
theorem finalCheck_not_mem_reopenTargets (es : Stage) :
    Stage.finalCheck ∉ reopenTargets es := by
  cases es <;> decide


/-- Helper: normal form of update_subagent_stage for the final_check/failed
transition (no dependency gate, no validation gate, no downstream
downgrade; only the stage write and the auto-reopen logic remain). -/
theorem updateSubagentStage_finalCheck_failed (w : OrchWorld)
    (lr : Option ReopenInfo) (agent notes : String) (force : Bool) :
    updateSubagentStage w lr .finalCheck .failed agent notes force =
      (match suggestReopenStage w.reviewIssues with
       | (some rs, counts) =>
         Except.ok
           { stages := reopenDocStagesFrom
               (fun s => if s = .finalCheck then
                   { status := .failed, agent := pyTrim agent, docHash := "",
                     upstreamHashes := [], notes := pyTrim notes,
                     validationErrors := [] }
                 else w.stages s) rs
               ("auto reopen by final-check mapping ("
                ++ String.intercalate ", "
                    ((counts.filter (fun p => decide (0 < p.2))).map
                      (fun p => stageName p.1 ++ ":" ++ toString p.2))
                ++ ")")
             lastReopen := some
               { stage := rs
                 reason := "auto reopen by final-check mapping ("
                   ++ String.intercalate ", "
                       ((counts.filter (fun p => decide (0 < p.2))).map
                         (fun p => stageName p.1 ++ ":" ++ toString p.2))
                   ++ ")"
                 source := "final_check"
                 issueCount := w.reviewIssues.length
                 breakdown := counts.filter (fun p => decide (0 < p.2)) }
             currentStage := (recommendedNextStage (reopenDocStagesFrom
               (fun s => if s = .finalCheck then
                   { status := .failed, agent := pyTrim agent, docHash := "",
                     upstreamHashes := [], notes := pyTrim notes,
                     validationErrors := [] }
                 else w.stages s) rs
               ("auto reopen by final-check mapping ("
                ++ String.intercalate ", "
                    ((counts.filter (fun p => decide (0 < p.2))).map
                      (fun p => stageName p.1 ++ ":" ++ toString p.2))
                ++ ")"))).getD .finalCheck }
       | (none, _) =>
         Except.ok
           { stages := fun s => if s = .finalCheck then
               { status := .failed, agent := pyTrim agent, docHash := "",
                 upstreamHashes := [], notes := pyTrim notes,
                 validationErrors := [] }
             else w.stages s
             lastReopen := none
             currentStage := (recommendedNextStage
               (fun s => if s = .finalCheck then
                   { status := .failed, agent := pyTrim agent, docHash := "",
                     upstreamHashes := [], notes := pyTrim notes,
                     validationErrors := [] }
                 else w.stages s)).getD .finalCheck }) := by
  have h1 : ¬(StageStatus.failed = .running ∨ StageStatus.failed = .completed) := by
    simp
  have h2 : Stage.finalCheck = Stage.finalCheck ∧ StageStatus.failed = .failed :=
    ⟨rfl, rfl⟩
  have h3 : ¬((StageStatus.failed = .pending ∨ StageStatus.failed = .failed)
      ∧ Stage.finalCheck ≠ .finalCheck) := by simp
  have h4 : ¬(StageStatus.failed = .completed ∧ isDocStage .finalCheck = true) := by
    simp [isDocStage]
  have h5 : ¬(StageStatus.failed = .completed) := by simp
  rw [updateSubagentStage]
  simp only [if_neg h1, if_neg h5, if_pos h2, if_neg h3, if_neg h4]
  cases hsugg : suggestReopenStage w.reviewIssues with
  | mk o counts =>
    cases o <;> rfl


/-- Claim C6: completing final_check as failed classifies every review
issue to a document stage (code prefix, then doc field, then keyword
fallback), reopens every stage from the earliest classified stage through
acceptance — setting them pending with doc_hash, upstream_hashes and
validation_errors cleared and leaving the earlier stages untouched — and
records last_reopen.stage as that earliest stage; an issue list classified
only to prd therefore reopens prd, tech and acceptance but not analysis;
and with no review issues nothing is reopened and last_reopen is
cleared. -/
theorem c6_final_check_failed_reopens_from_earliest (w : OrchWorld)
    (lr : Option ReopenInfo) (agent notes : String) (force : Bool) :
    (∃ res, updateSubagentStage w lr .finalCheck .failed agent notes force
        = .ok res)
    ∧ (∀ res, updateSubagentStage w lr .finalCheck .failed agent notes force
          = .ok res →
        ((res.stages .finalCheck).status = .failed
         ∧ (w.reviewIssues = [] →
             res.lastReopen = none
             ∧ ∀ s, s ≠ .finalCheck → res.stages s = w.stages s)
         ∧ (∀ es, earliestReopenStage w.reviewIssues = some es →
             res.lastReopen.map (fun i => i.stage) = some es
             ∧ (∀ s ∈ reopenTargets es,
                 (res.stages s).status = .pending
                 ∧ (res.stages s).docHash = ""
                 ∧ (res.stages s).upstreamHashes = []
                 ∧ (res.stages s).validationErrors = [])
             ∧ (∀ s ∈ reopenOrder, s ∉ reopenTargets es →
                 res.stages s = w.stages s))))
    ∧ (w.reviewIssues ≠ [] → (earliestReopenStage w.reviewIssues).isSome)
    ∧ ((∀ it ∈ w.reviewIssues, classifyIssueToStage it = .prd) →
        w.reviewIssues ≠ [] →
        earliestReopenStage w.reviewIssues = some .prd
        ∧ reopenTargets .prd = [.prd, .tech, .acceptance]) := by
  have hnf := updateSubagentStage_finalCheck_failed w lr agent notes force
  refine ⟨?_, ?_, ?_, ?_⟩
  · rw [hnf]
    cases hsugg : suggestReopenStage w.reviewIssues with
    | mk o counts => cases o <;> exact ⟨_, rfl⟩
  · intro res hres
    rw [hnf] at hres
    cases hsugg : suggestReopenStage w.reviewIssues with
    | mk o counts =>
      rw [hsugg] at hres
      cases o with
      | none =>
        injection hres with h
        subst h
        refine ⟨by simp, ?_, ?_⟩
        · intro _
          exact ⟨rfl, fun s hs => by simp [hs]⟩
        · intro es hes
          rw [earliestReopenStage, hsugg] at hes
          exact Option.noConfusion hes
      | some rs =>
        injection hres with h
        subst h
        refine ⟨?_, ?_, ?_⟩
        · simp [reopenDocStagesFrom, finalCheck_not_mem_reopenTargets rs]
        · intro hE
          rw [hE] at hsugg
          simp [suggestReopenStage] at hsugg
        · intro es hes
          rw [earliestReopenStage, hsugg] at hes
          have hrs : rs = es := Option.some.inj hes
          subst hrs
          refine ⟨by simp, ?_, ?_⟩
          · intro s hs
            simp [reopenDocStagesFrom, hs]
          · intro s hs hns
            have hsne : s ≠ .finalCheck := by
              rintro rfl
              exact (by decide : Stage.finalCheck ∉ reopenOrder) hs
            simp [reopenDocStagesFrom, hns, hsne]
  · intro hne
    rw [earliestReopenStage, suggestReopenStage]
    have hie : w.reviewIssues.isEmpty = false := by
      simpa [List.isEmpty_iff] using hne
    simp only [hie, Bool.false_eq_true, if_false]
    rw [List.find?_isSome]
    cases hI : w.reviewIssues with
    | nil => exact absurd hI hne
    | cons it rest =>
      refine ⟨classifyIssueToStage it, classifyIssueToStage_mem_reopenOrder it, ?_⟩
      have hmem : it ∈ (it :: rest).filter
          (fun x => decide (classifyIssueToStage x = classifyIssueToStage it)) := by
        rw [List.mem_filter]
        exact ⟨by simp, by simp⟩
      have hpos : 0 < ((it :: rest).filter
          (fun x => decide (classifyIssueToStage x = classifyIssueToStage it))).length :=
        List.length_pos.mpr (List.ne_nil_of_mem hmem)
      simpa using hpos
  · intro hall hne
    refine ⟨?_, by decide⟩
    rw [earliestReopenStage, suggestReopenStage]
    have hie : w.reviewIssues.isEmpty = false := by
      simpa [List.isEmpty_iff] using hne
    simp only [hie, Bool.false_eq_true, if_false]
    have hana : (w.reviewIssues.filter
        (fun it => decide (classifyIssueToStage it = Stage.analysis))).length = 0 := by
      rw [List.length_eq_zero, List.filter_eq_nil_iff]
      intro it hit
      simp [hall it hit]
    have hprd : 0 < (w.reviewIssues.filter
        (fun it => decide (classifyIssueToStage it = Stage.prd))).length := by
      rw [List.filter_eq_self.mpr (fun it hit => by simp [hall it hit])]
      exact List.length_pos.mpr hne
    simp [reopenOrder, List.find?, hana, hprd]


/-- Witness for C6: in c6World the single prd-classified issue makes prd
the earliest reopen stage, whose reopen set is prd, tech, acceptance (and
not analysis), and the final_check failed transition succeeds. -/
theorem c6_final_check_failed_reopens_from_earliest_witness :
    (∃ res, updateSubagentStage c6World none .finalCheck .failed "qa" "" false
        = .ok res)
    ∧ earliestReopenStage c6World.reviewIssues = some .prd
    ∧ reopenTargets .prd = [.prd, .tech, .acceptance] := by
  have h := c6_final_check_failed_reopens_from_earliest c6World none "qa" "" false
  exact ⟨h.1, (h.2.2.2 (by decide) (by decide)).1, (h.2.2.2 (by decide) (by decide)).2⟩


end SpecAgent
